import Mathlib

/- Formal model of the pull-request synchronization pipeline implemented in
src/sync_notion_with_ai.py.  Python strings are embedded as lists of
characters, HTTP interactions as explicit oracle functions together with an
event trace, and fallible operations as Except-valued functions. -/

/-- Python strings are modelled as lists of characters. -/
abbrev Str := List Char

/-- ASCII lowercasing, as performed by the source's str.lower() on the
character ranges that occur in identifiers and branch names. -/
def pyLower (c : Char) : Char :=
  if c.toNat ≥ 65 ∧ c.toNat ≤ 90 then Char.ofNat (c.toNat + 32) else c

/-- Characters stripped by Python's str.rstrip() with no arguments
(ASCII whitespace). -/
def isPySpace (c : Char) : Bool :=
  c == ' ' || c == '\t' || c == '\n' || c == '\r' || c == '\x0b' || c == '\x0c'

/-- Python's line.rstrip(): remove trailing whitespace. -/
def rstrip (s : Str) : Str :=
  (s.reverse.dropWhile isPySpace).reverse

/-- Python's markdown.split of a string at each newline, keeping empty
pieces (str.split semantics with a one-character separator). -/
def splitLines : Str → List Str
  | [] => [[]]
  | c :: cs =>
    match splitLines cs with
    | [] => [[]]
    | l :: ls => if c = '\n' then [] :: l :: ls else (c :: l) :: ls

/- ------------------------------------------------------------------ -/
/- Prefix Router: extract_prefix_from_branch and get_page_id_for_prefix -/
/- ------------------------------------------------------------------ -/

/-- The character class of the branch-name pattern in the source,
[a-zA-Z0-9_-]. -/
def isBranchChar (c : Char) : Bool :=
  c.isAlpha || c.isDigit || c == '_' || c == '-'

/-- Embeds extract_prefix_from_branch: match a leading nonempty run of
branch characters followed by a slash; on a match return the run
lowercased, otherwise Python None (here: none). -/
def extract_prefix_from_branch (branch : Str) : Option Str :=
  if branch.takeWhile isBranchChar ≠ [] ∧
      (branch.dropWhile isBranchChar).head? = some '/' then
    some ((branch.takeWhile isBranchChar).map pyLower)
  else none

/-- The reserved mapping key named default in the source. -/
def defaultKey : Str := ['d', 'e', 'f', 'a', 'u', 'l', 't']

/-- Association-list lookup modelling Python dict access (keys are unique
in a dict, so first-match lookup is faithful). -/
def lookupKey (k : Str) : List (Str × Str) → Option Str
  | [] => none
  | (a, v) :: rest => if a = k then some v else lookupKey k rest

/-- The ValueError raised when neither the routing key nor a default entry
exists; it carries the missing key exactly as the source's message does. -/
inductive ConfigError where
  | noMapping (pfx : Option Str)
deriving DecidableEq

/-- The elif-default / else-raise tail of the source's routing function. -/
def fallbackToDefault (mapping : List (Str × Str)) (pfx : Option Str) :
    Except ConfigError Str :=
  match lookupKey defaultKey mapping with
  | some d => Except.ok d
  | none => Except.error (ConfigError.noMapping pfx)

/-- Embeds get_page_id_for_prefix.  The source guard is
(prefix and prefix in mapping): Python truthiness, so None and the empty
string both fall through to the default entry. -/
def get_page_id_for_pfx (pfx : Option Str) (mapping : List (Str × Str)) :
    Except ConfigError Str :=
  match pfx with
  | some p =>
    if p ≠ [] then
      match lookupKey p mapping with
      | some v => Except.ok v
      | none => fallbackToDefault mapping (some p)
    else fallbackToDefault mapping (some p)
  | none => fallbackToDefault mapping none

/- ------------------------------------------------------------------ -/
/- Page ID Normalizer: format_page_id                                  -/
/- ------------------------------------------------------------------ -/

/-- The ValueError raised on a malformed identifier; carries the offending
input as the source's message does. -/
inductive IdError where
  | invalidLength (original : Str)
deriving DecidableEq

/-- Embeds clean_id = page_id.replace(hyphen, empty).lower(). -/
def cleanId (page_id : Str) : Str :=
  (page_id.filter (fun c => c != '-')).map pyLower

/-- Embeds the source's slicing clean_id[0:8]-[8:12]-[12:16]-[16:20]-[20:32]. -/
def insertDashes (clean : Str) : Str :=
  clean.take 8 ++ '-' ::
    ((clean.drop 8).take 4 ++ '-' ::
      ((clean.drop 12).take 4 ++ '-' ::
        ((clean.drop 16).take 4 ++ '-' :: (clean.drop 20).take 12)))

/-- Embeds format_page_id: strip hyphens and lowercase, reject any other
length than 32, otherwise re-insert hyphens at offsets 8, 12, 16, 20. -/
def format_page_id (page_id : Str) : Except IdError Str :=
  let clean := cleanId page_id
  if clean.length ≠ 32 then Except.error (IdError.invalidLength page_id)
  else Except.ok (insertDashes clean)

/- ------------------------------------------------------------------ -/
/- Markdown-to-Block Converter: markdown_to_notion_blocks              -/
/- ------------------------------------------------------------------ -/

inductive BlockType where
  | heading1
  | heading2
  | heading3
  | bulleted
  | numbered
  | paragraph
deriving DecidableEq

/-- A store-native content block as built by the converter: a type tag and
the single rich-text payload the source puts in the JSON it emits. -/
structure Block where
  btype : BlockType
  text : Str
deriving DecidableEq

def h1Marker : Str := ['#', ' ']

def h2Marker : Str := ['#', '#', ' ']

def h3Marker : Str := ['#', '#', '#', ' ']

def dashMarker : Str := ['-', ' ']

def bulletMarker : Str := ['•', ' ']

/-- Embeds the regex test re.match of digits, dot, one whitespace together
with the re.sub removal of the matched marker: returns the remainder of
the line when the pattern matches. -/
def numberedRemainder (l : Str) : Option Str :=
  if l.takeWhile Char.isDigit = [] then none
  else
    match l.dropWhile Char.isDigit with
    | '.' :: c :: r => if isPySpace c then some r else none
    | _ => none

/-- The source's if/elif chain applied to one rstripped, nonempty line. -/
def parseStripped (t : Str) : Block :=
  if h1Marker.isPrefixOf t then ⟨BlockType.heading1, t.drop 2⟩
  else if h2Marker.isPrefixOf t then ⟨BlockType.heading2, t.drop 3⟩
  else if h3Marker.isPrefixOf t then ⟨BlockType.heading3, t.drop 4⟩
  else if dashMarker.isPrefixOf t || bulletMarker.isPrefixOf t then
    ⟨BlockType.bulleted, t.drop 2⟩
  else
    match numberedRemainder t with
    | some r => ⟨BlockType.numbered, r⟩
    | none => ⟨BlockType.paragraph, t⟩

/-- One iteration of the converter's loop: rstrip the line, skip it when
empty, otherwise apply the rule chain. -/
def parseLine (line : Str) : Option Block :=
  let t := rstrip line
  if t = [] then none else some (parseStripped t)

/-- Embeds markdown_to_notion_blocks: split at newlines and convert each
line, blank lines producing no block. -/
def markdown_to_notion_blocks (markdown : Str) : List Block :=
  (splitLines markdown).filterMap parseLine

/- ------------------------------------------------------------------ -/
/- Content Reader: get_notion_page_content                             -/
/- ------------------------------------------------------------------ -/

/-- A block as returned by the store's listing endpoint: an optional type
tag and the plain-text fragments of its rich_text array. -/
structure RawBlock where
  btype : Option Str
  rich_text : List Str
deriving DecidableEq

def h1Tag : Str := ['h', 'e', 'a', 'd', 'i', 'n', 'g', '_', '1']

def h2Tag : Str := ['h', 'e', 'a', 'd', 'i', 'n', 'g', '_', '2']

def h3Tag : Str := ['h', 'e', 'a', 'd', 'i', 'n', 'g', '_', '3']

def bulletTag : Str :=
  ['b', 'u', 'l', 'l', 'e', 't', 'e', 'd', '_', 'l', 'i', 's', 't', '_', 'i', 't', 'e', 'm']

def numberTag : Str :=
  ['n', 'u', 'm', 'b', 'e', 'r', 'e', 'd', '_', 'l', 'i', 's', 't', '_', 'i', 't', 'e', 'm']

def paragraphTag : Str := ['p', 'a', 'r', 'a', 'g', 'r', 'a', 'p', 'h']

/-- The rendering of one block inside get_notion_page_content: skipped when
the type tag is missing or the rich_text array is empty; otherwise the
joined plain-text fragments behind the per-type line marker. -/
def renderRawBlock (b : RawBlock) : Option Str :=
  match b.btype with
  | none => none
  | some tag =>
    if b.rich_text = [] then none
    else
      let text := b.rich_text.flatten
      if tag = h1Tag then some ('#' :: ' ' :: text)
      else if tag = h2Tag then some ('#' :: '#' :: ' ' :: text)
      else if tag = h3Tag then some ('#' :: '#' :: '#' :: ' ' :: text)
      else if tag = bulletTag then some ('•' :: ' ' :: text)
      else if tag = numberTag then some ('1' :: '.' :: ' ' :: text)
      else some text

/-- The newline join of the rendered block lines. -/
def renderRawBlocks (blocks : List RawBlock) : Str :=
  List.intercalate ['\n'] (blocks.filterMap renderRawBlock)

/-- One page of a paginated listing response. -/
structure PageResponse where
  results : List RawBlock
  has_more : Bool
  next_cursor : Option Str
deriving DecidableEq

/-- The request parameters of one listing call. -/
structure ReadRequest where
  page_size : Nat
  start_cursor : Option Str
deriving DecidableEq

/-- The cursor attached to a request: only a truthy value is sent
(Python: if start_cursor), so None and the empty string are both
omitted. -/
def sentCursor : Option Str → Option Str
  | none => none
  | some c => if c = [] then none else some c

/-- The pagination loop of get_notion_page_content run against the
sequence of responses the store will give: one response is consumed per
request, and the loop continues with the response's next_cursor while
has_more holds.  Returns the accumulated blocks and the issued
requests. -/
def readLoop : List PageResponse → Option Str → List RawBlock × List ReadRequest
  | [], _ => ([], [])
  | p :: ps, cursor =>
    if p.has_more then
      let rest := readLoop ps p.next_cursor
      (p.results ++ rest.1, ⟨100, sentCursor cursor⟩ :: rest.2)
    else (p.results, [⟨100, sentCursor cursor⟩])

/-- Embeds get_notion_page_content: gather every page of blocks, then
render the accumulated list. -/
def get_notion_page_content (pages : List PageResponse) : Str :=
  renderRawBlocks (readLoop pages none).1

/-- The per-type tag of the JSON the converter emits. -/
def blockTag : BlockType → Str
  | BlockType.heading1 => h1Tag
  | BlockType.heading2 => h2Tag
  | BlockType.heading3 => h3Tag
  | BlockType.bulleted => bulletTag
  | BlockType.numbered => numberTag
  | BlockType.paragraph => paragraphTag

/-- A converter-produced block as the reader would see it: the matching
type tag and one rich-text fragment. -/
def blockToRaw (b : Block) : RawBlock := ⟨some (blockTag b.btype), [b.text]⟩

/-- Rendering a converter-produced block sequence to markdown with the
reader's per-type line markers. -/
def blocksToMarkdown (bs : List Block) : Str :=
  renderRawBlocks (bs.map blockToRaw)

/- ------------------------------------------------------------------ -/
/- Page Updater: delete_all_blocks and update_notion_page              -/
/- ------------------------------------------------------------------ -/

/-- The failure taxonomy of one boundary call: an exception from the HTTP
client itself, or an HTTP error status surfaced by raise_for_status. -/
inductive TransportError where
  | connectionError
  | httpError
deriving DecidableEq

/-- Outcome of one HTTP request: a connection-level exception from the
client, or a response carrying an HTTP success flag and a body. -/
inductive HttpResult (α : Type) where
  | connError
  | response (ok : Bool) (body : α)
deriving DecidableEq

/-- Embeds a request followed by Response.raise_for_status: an exception
surfaces either from the transport or from an HTTP error status. -/
def raise_for_status {α : Type} : HttpResult α → Except TransportError α
  | HttpResult.connError => Except.error TransportError.connectionError
  | HttpResult.response ok body =>
    if ok then Except.ok body else Except.error TransportError.httpError

/-- The content-store operations used by the page-replacement path, given
as oracles fixing how the store would answer each request. -/
structure Store where
  getChildrenOnce : HttpResult (List Str)
  deleteBlock : Str → HttpResult Unit
  patchChildren : List Block → HttpResult Unit

/-- One request issued by the page-replacement path. -/
inductive StoreEvent where
  | listChildren
  | deleteBlock (id : Str)
  | appendChildren (batch : List Block)
deriving DecidableEq

/-- The per-block deletion loop of delete_all_blocks.  The source calls
requests.delete without raise_for_status, so an HTTP error response is
ignored and the loop continues; only a connection-level exception
escapes. -/
def deleteLoop (store : Store) :
    List Str → Except TransportError Unit × List StoreEvent
  | [] => (Except.ok (), [])
  | b :: bs =>
    match store.deleteBlock b with
    | HttpResult.connError =>
      (Except.error TransportError.connectionError, [StoreEvent.deleteBlock b])
    | HttpResult.response _ _ =>
      let rest := deleteLoop store bs
      (rest.1, StoreEvent.deleteBlock b :: rest.2)

/-- Embeds delete_all_blocks: one unpaginated children listing (with
raise_for_status), then one delete request per returned block. -/
def delete_all_blocks (store : Store) :
    Except TransportError Unit × List StoreEvent :=
  match raise_for_status store.getChildrenOnce with
  | Except.error e => (Except.error e, [StoreEvent.listChildren])
  | Except.ok bs =>
    let rest := deleteLoop store bs
    (rest.1, StoreEvent.listChildren :: rest.2)

/-- Structural helper for the batching loop: fuel is an upper bound on the
number of iterations (each one consumes at least one block), making the
recursion structural; with fuel at least the list length the fuel is never
exhausted. -/
def chunkFuel : Nat → List Block → List (List Block)
  | _, [] => []
  | 0, b :: rest => [b :: rest]
  | fuel + 1, b :: rest => ((b :: rest).take 100) :: chunkFuel fuel (rest.drop 99)

/-- Embeds the batching loop range(0, len(new_blocks), 100): successive
slices of at most 100 blocks. -/
def chunkList100 (l : List Block) : List (List Block) :=
  chunkFuel l.length l

/-- The append loop of update_notion_page: one patch request per batch,
each followed by raise_for_status. -/
def appendLoop (store : Store) :
    List (List Block) → Except TransportError Unit × List StoreEvent
  | [] => (Except.ok (), [])
  | c :: cs =>
    match raise_for_status (store.patchChildren c) with
    | Except.error e => (Except.error e, [StoreEvent.appendChildren c])
    | Except.ok _ =>
      let rest := appendLoop store cs
      (rest.1, StoreEvent.appendChildren c :: rest.2)

/-- Embeds update_notion_page: clear the page, then append the new blocks
in batches of at most 100. -/
def update_notion_page (store : Store) (new_blocks : List Block) :
    Except TransportError Unit × List StoreEvent :=
  match delete_all_blocks store with
  | (Except.error e, tr) => (Except.error e, tr)
  | (Except.ok _, tr) =>
    let rest := appendLoop store (chunkList100 new_blocks)
    (rest.1, tr ++ rest.2)

/- ------------------------------------------------------------------ -/
/- PR Tracker: check_pr_exists_in_database and the insert step of main  -/
/- ------------------------------------------------------------------ -/

/-- The body of the database query request. -/
structure QueryPayload where
  filter_property : Str
  url_equals : Str
  page_size : Nat
deriving DecidableEq

def linkProp : Str := ['L', 'i', 'n', 'k']

/-- The query body built by check_pr_exists_in_database: an exact-match
filter on the Link property with page_size 1. -/
def pr_exists_payload (url : Str) : QueryPayload :=
  ⟨linkProp, url, 1⟩

/-- The pull-request fields used by the tracking path. -/
structure PrInfo where
  title : Str
  author : Str
  url : Str
  created_at : Str
deriving DecidableEq

/-- One tracking row as built by add_pr_to_database. -/
structure PrRow where
  title : Str
  author : Str
  date : Str
  pfx : Str
  url : Str
deriving DecidableEq

def noneSentinel : Str := ['n', 'o', 'n', 'e']

/-- The tracking row built by add_pr_to_database: the date is the ISO
timestamp truncated at the first T, and a falsy routing key becomes the
sentinel (Python: prefix or the none string). -/
def mk_pr_row (info : PrInfo) (pfx : Option Str) : PrRow :=
  { title := info.title
    author := info.author
    date := info.created_at.takeWhile (fun c => c != 'T')
    pfx :=
      match pfx with
      | some p => if p = [] then noneSentinel else p
      | none => noneSentinel
    url := info.url }

/-- The tracking-store operations, as oracles. -/
structure TrackerStore where
  queryDatabase : QueryPayload → HttpResult (List Str)
  createPage : PrRow → HttpResult Str

/-- One request issued by the tracking path. -/
inductive TrackEvent where
  | queryDb (payload : QueryPayload)
  | insertRow (row : PrRow)
deriving DecidableEq

/-- Embeds check_pr_exists_in_database: post the query, raise_for_status,
report whether any row matched. -/
def check_pr_exists_in_database (db : TrackerStore) (url : Str) :
    Except TransportError Bool × List TrackEvent :=
  match raise_for_status (db.queryDatabase (pr_exists_payload url)) with
  | Except.error e =>
    (Except.error e, [TrackEvent.queryDb (pr_exists_payload url)])
  | Except.ok rows =>
    (Except.ok (decide (0 < rows.length)), [TrackEvent.queryDb (pr_exists_payload url)])

/-- The PR-tracking step of main: check existence first, insert only when
absent (add_pr_to_database posts the row followed by raise_for_status). -/
def track_pr (db : TrackerStore) (info : PrInfo) (pfx : Option Str) :
    Except TransportError Unit × List TrackEvent :=
  match check_pr_exists_in_database db info.url with
  | (Except.error e, tr) => (Except.error e, tr)
  | (Except.ok true, tr) => (Except.ok (), tr)
  | (Except.ok false, tr) =>
    match raise_for_status (db.createPage (mk_pr_row info pfx)) with
    | Except.error e => (Except.error e, tr ++ [TrackEvent.insertRow (mk_pr_row info pfx)])
    | Except.ok _ => (Except.ok (), tr ++ [TrackEvent.insertRow (mk_pr_row info pfx)])

/- ------------------------------------------------------------------ -/
/- The converter rule table as the specification words it               -/
/- ------------------------------------------------------------------ -/

/-- Modelled from the claim text, word for word: the numbered-item pattern
of the rule table written as digits, a dot and a space character. -/
def claimNumberedRemainder (l : Str) : Option Str :=
  if l.takeWhile Char.isDigit = [] then none
  else
    match l.dropWhile Char.isDigit with
    | '.' :: ' ' :: r => some r
    | _ => none

/-- The claim's rule table per line, exactly as worded.  The listed
patterns are pairwise disjoint, so the checks are deliberately written in
the reverse of the source's order. -/
def claimLineRule (line : Str) : List Block :=
  let t := rstrip line
  if t = [] then []
  else
    match claimNumberedRemainder t with
    | some r => [⟨BlockType.numbered, r⟩]
    | none =>
      if dashMarker.isPrefixOf t || bulletMarker.isPrefixOf t then
        [⟨BlockType.bulleted, t.drop 2⟩]
      else if h3Marker.isPrefixOf t then [⟨BlockType.heading3, t.drop 4⟩]
      else if h2Marker.isPrefixOf t then [⟨BlockType.heading2, t.drop 3⟩]
      else if h1Marker.isPrefixOf t then [⟨BlockType.heading1, t.drop 2⟩]
      else [⟨BlockType.paragraph, t⟩]

/-- The claim's rule table amended at exactly one point: after the digit
run and the dot comes one whitespace character (the regex class of the
source) rather than one space character. -/
def amendedLineRule (line : Str) : List Block :=
  let t := rstrip line
  if t = [] then []
  else
    match numberedRemainder t with
    | some r => [⟨BlockType.numbered, r⟩]
    | none =>
      if dashMarker.isPrefixOf t || bulletMarker.isPrefixOf t then
        [⟨BlockType.bulleted, t.drop 2⟩]
      else if h3Marker.isPrefixOf t then [⟨BlockType.heading3, t.drop 4⟩]
      else if h2Marker.isPrefixOf t then [⟨BlockType.heading2, t.drop 3⟩]
      else if h1Marker.isPrefixOf t then [⟨BlockType.heading1, t.drop 2⟩]
      else [⟨BlockType.paragraph, t⟩]

def c7Page1 : PageResponse := ⟨[⟨some paragraphTag, [['a']]⟩], true, some ['c', '1']⟩

def c7Page2 : PageResponse := ⟨[⟨some paragraphTag, [['b']]⟩], true, some ['c', '2']⟩

def c7Page3 : PageResponse := ⟨[⟨some paragraphTag, [['c']]⟩], false, none⟩

def c2Store : Store :=
  { getChildrenOnce := HttpResult.response true [['b', '1'], ['b', '2']]
    deleteBlock := fun _ => HttpResult.response true ()
    patchChildren := fun _ => HttpResult.response true () }

def c2Blocks : List Block := [⟨BlockType.heading1, ['T']⟩, ⟨BlockType.paragraph, ['x']⟩]

/-- A store whose single block answers its delete request with an HTTP
error status while every other request succeeds. -/
def c1Store : Store :=
  { getChildrenOnce := HttpResult.response true [['b', '1']]
    deleteBlock := fun _ => HttpResult.response false ()
    patchChildren := fun _ => HttpResult.response true () }

def c1OkStore : Store :=
  { getChildrenOnce := HttpResult.response true [['b', '1']]
    deleteBlock := fun _ => HttpResult.response true ()
    patchChildren := fun _ => HttpResult.response false () }

def c8Db : TrackerStore :=
  { queryDatabase := fun _ => HttpResult.response true [['r', '1']]
    createPage := fun _ => HttpResult.response true ['i', 'd'] }

def c8Info : PrInfo := ⟨['t'], ['a'], ['u'], ['2', '0', '2', '6']⟩

/- ------------------------------------------------------------------ -/
/- Claim C4                                                            -/
/- ------------------------------------------------------------------ -/

/-- The line marker the reader prepends for each block type. -/
def lineMarker : BlockType → Str
  | BlockType.heading1 => ['#', ' ']
  | BlockType.heading2 => ['#', '#', ' ']
  | BlockType.heading3 => ['#', '#', '#', ' ']
  | BlockType.bulleted => ['•', ' ']
  | BlockType.numbered => ['1', '.', ' ']
  | BlockType.paragraph => []

/-- The line the reader renders for one converter-produced block. -/
def renderedLine (b : Block) : Str := lineMarker b.btype ++ b.text

/- ------------------------------------------------------------------ -/
/- Theorems                                                            -/
/- ------------------------------------------------------------------ -/
/- ------------------------------------------------------------------ -/
/- Helper lemmas about characters                                      -/
/- ------------------------------------------------------------------ -/

theorem toNat_ofNat_valid (n : Nat) (h : n < 55296) : (Char.ofNat n).toNat = n := by
  have hv : n.isValidChar := Or.inl h
  simp [Char.ofNat, Char.ofNatAux, Char.toNat, hv]
  rfl

theorem pyLower_idem (c : Char) : pyLower (pyLower c) = pyLower c := by
  unfold pyLower
  split
  · rw [if_neg]
    rw [toNat_ofNat_valid]
    · omega
    · omega
  · rfl

theorem pyLower_ne_hyphen (c : Char) (h : c ≠ '-') : pyLower c ≠ '-' := by
  unfold pyLower
  split
  · intro hc
    have h2 := congrArg Char.toNat hc
    rw [toNat_ofNat_valid] at h2
    · rw [show Char.toNat '-' = 45 from rfl] at h2
      omega
    · omega
  · exact h

/- ------------------------------------------------------------------ -/
/- Supporting lemmas                                                   -/
/- ------------------------------------------------------------------ -/

theorem takeWhile_append_all {p : Char → Bool} {l₁ : List Char} (b : Char) (l₂ : List Char)
    (h1 : ∀ c ∈ l₁, p c = true) (h2 : p b = false) :
    (l₁ ++ b :: l₂).takeWhile p = l₁ ∧ (l₁ ++ b :: l₂).dropWhile p = b :: l₂ := by
  induction l₁ with
  | nil => simp [List.takeWhile, List.dropWhile, h2]
  | cons a t ih =>
    have ha : p a = true := h1 a (List.mem_cons_self a t)
    have ih2 := ih (fun c hc => h1 c (List.mem_cons_of_mem a hc))
    simp [List.takeWhile, List.dropWhile, ha, ih2.1, ih2.2]

theorem cleanId_no_hyphen (x : Str) : ∀ c ∈ cleanId x, c ≠ '-' := by
  intro c hc
  unfold cleanId at hc
  rcases List.mem_map.mp hc with ⟨a, ha, rfl⟩
  have hne := List.of_mem_filter ha
  exact pyLower_ne_hyphen a (by simpa using hne)

theorem filter_hyphen_eq_self {l : Str} (h : ∀ c ∈ l, c ≠ '-') :
    l.filter (fun c => c != '-') = l :=
  List.filter_eq_self.mpr (fun a ha => by simpa using h a ha)

theorem slices_rebuild (c : Str) (h : c.length = 32) :
    c.take 8 ++ ((c.drop 8).take 4 ++ ((c.drop 12).take 4 ++
      ((c.drop 16).take 4 ++ (c.drop 20).take 12))) = c := by
  have h20 : (c.drop 20).take 12 = c.drop 20 := by
    apply List.take_of_length_le
    simp [h]
  have e16 : (c.drop 16).take 4 ++ c.drop 20 = c.drop 16 := by
    rw [show c.drop 20 = (c.drop 16).drop 4 from by rw [List.drop_drop]]
    exact List.take_append_drop 4 (c.drop 16)
  have e12 : (c.drop 12).take 4 ++ c.drop 16 = c.drop 12 := by
    rw [show c.drop 16 = (c.drop 12).drop 4 from by rw [List.drop_drop]]
    exact List.take_append_drop 4 (c.drop 12)
  have e8 : (c.drop 8).take 4 ++ c.drop 12 = c.drop 8 := by
    rw [show c.drop 12 = (c.drop 8).drop 4 from by rw [List.drop_drop]]
    exact List.take_append_drop 4 (c.drop 8)
  rw [h20, e16, e12, e8]
  exact List.take_append_drop 8 c

theorem filter_insertDashes (c : Str) (h32 : c.length = 32) (hno : ∀ a ∈ c, a ≠ '-') :
    (insertDashes c).filter (fun ch => ch != '-') = c := by
  have f1 : (c.take 8).filter (fun ch => ch != '-') = c.take 8 :=
    filter_hyphen_eq_self (fun a ha => hno a (List.take_subset 8 c ha))
  have f2 : ((c.drop 8).take 4).filter (fun ch => ch != '-') = (c.drop 8).take 4 :=
    filter_hyphen_eq_self
      (fun a ha => hno a (List.drop_subset 8 c (List.take_subset 4 (c.drop 8) ha)))
  have f3 : ((c.drop 12).take 4).filter (fun ch => ch != '-') = (c.drop 12).take 4 :=
    filter_hyphen_eq_self
      (fun a ha => hno a (List.drop_subset 12 c (List.take_subset 4 (c.drop 12) ha)))
  have f4 : ((c.drop 16).take 4).filter (fun ch => ch != '-') = (c.drop 16).take 4 :=
    filter_hyphen_eq_self
      (fun a ha => hno a (List.drop_subset 16 c (List.take_subset 4 (c.drop 16) ha)))
  have f5 : ((c.drop 20).take 12).filter (fun ch => ch != '-') = (c.drop 20).take 12 :=
    filter_hyphen_eq_self
      (fun a ha => hno a (List.drop_subset 20 c (List.take_subset 12 (c.drop 20) ha)))
  unfold insertDashes
  simp only [List.filter_append, List.filter_cons]
  norm_num
  rw [f1, f2, f3, f4, f5]
  exact slices_rebuild c h32

theorem map_pyLower_cleanId (x : Str) : (cleanId x).map pyLower = cleanId x := by
  unfold cleanId
  rw [List.map_map]
  apply List.map_congr_left
  intro a _
  exact pyLower_idem a

theorem cleanId_insertDashes (x : Str) (h : (cleanId x).length = 32) :
    cleanId (insertDashes (cleanId x)) = cleanId x := by
  have hf := filter_insertDashes (cleanId x) h (cleanId_no_hyphen x)
  show ((insertDashes (cleanId x)).filter (fun ch => ch != '-')).map pyLower = cleanId x
  rw [hf]
  exact map_pyLower_cleanId x

/- ------------------------------------------------------------------ -/
/- Claim C9                                                            -/
/- ------------------------------------------------------------------ -/

/-- Claim C9: for every branch name, the extractor returns the lowercased
leading run of alphanumerics, underscore and hyphen exactly when that
nonempty run is immediately followed by a slash, and Python None
otherwise. -/
theorem C9_extract_characterization (branch : Str) :
    (∀ run rest, branch = run ++ '/' :: rest → run ≠ [] →
        (∀ c ∈ run, isBranchChar c) →
        extract_prefix_from_branch branch = some (run.map pyLower)) ∧
    ((¬ ∃ run rest, branch = run ++ '/' :: rest ∧ run ≠ [] ∧
        ∀ c ∈ run, isBranchChar c) →
      extract_prefix_from_branch branch = none) := by
  constructor
  · intro run rest hbr hne hall
    subst hbr
    have hslash : isBranchChar '/' = false := by decide
    have h := takeWhile_append_all '/' rest hall hslash
    unfold extract_prefix_from_branch
    rw [h.1, h.2]
    simp [hne]
  · intro hnex
    unfold extract_prefix_from_branch
    split
    · rename_i h
      exfalso
      apply hnex
      obtain ⟨h1, h2⟩ := h
      rcases hd : branch.dropWhile isBranchChar with _ | ⟨c, t⟩
      · rw [hd] at h2
        simp at h2
      · rw [hd] at h2
        simp at h2
        subst h2
        refine ⟨branch.takeWhile isBranchChar, t, ?_, h1, ?_⟩
        · conv_lhs => rw [← List.takeWhile_append_dropWhile isBranchChar branch]
          rw [hd]
        · intro x hx
          exact List.mem_takeWhile_imp hx
    · rfl

/-- Witness for claim C9 at the three concrete examples of the claim:
feat/x maps to feat, BUG/Y maps to bug, and main yields None. -/
theorem C9_extract_witness :
    extract_prefix_from_branch ['f', 'e', 'a', 't', '/', 'x'] = some ['f', 'e', 'a', 't'] ∧
    extract_prefix_from_branch ['B', 'U', 'G', '/', 'Y'] = some ['b', 'u', 'g'] ∧
    extract_prefix_from_branch ['m', 'a', 'i', 'n'] = none := by
  refine ⟨?_, ?_, ?_⟩
  · have h := (C9_extract_characterization ['f', 'e', 'a', 't', '/', 'x']).1
      ['f', 'e', 'a', 't'] ['x'] rfl (by decide) (by decide)
    rw [h]
    rw [show (['f', 'e', 'a', 't'] : Str).map pyLower = ['f', 'e', 'a', 't'] from by decide]
  · have h := (C9_extract_characterization ['B', 'U', 'G', '/', 'Y']).1
      ['B', 'U', 'G'] ['Y'] rfl (by decide) (by decide)
    rw [h]
    rw [show (['B', 'U', 'G'] : Str).map pyLower = ['b', 'u', 'g'] from by decide]
  · apply (C9_extract_characterization ['m', 'a', 'i', 'n']).2
    rintro ⟨run, rest, heq, -, hall⟩
    have : '/' ∈ (['m', 'a', 'i', 'n'] : Str) := by
      rw [heq]
      exact List.mem_append_right run (List.mem_cons_self '/' rest)
    simp at this

/- ------------------------------------------------------------------ -/
/- Claim C6                                                            -/
/- ------------------------------------------------------------------ -/

/-- Counterexample to claim C6 as stated: with the mapping that binds the
empty-string key and a default, and the defined empty-string routing key,
the source's truthiness guard skips the present entry and resolves to the
default instead of the entry the claim promises. -/
theorem C6_counterexample :
    ¬ (∀ (p : Str) (mapping : List (Str × Str)) (v : Str),
        lookupKey p mapping = some v →
        get_page_id_for_pfx (some p) mapping = Except.ok v) := by
  intro hclaim
  have h := hclaim [] [([], ['X']), (defaultKey, ['D'])] ['X'] (by decide)
  rw [show get_page_id_for_pfx (some ([] : Str)) [([], ['X']), (defaultKey, ['D'])] =
      Except.ok ['D'] from rfl] at h
  injection h with h2
  exact absurd h2 (by decide)

/-- Claim C6, amended: resolution returns the mapping entry when the
routing key is defined, nonempty (Python truthiness) and present;
otherwise the default entry when one exists; otherwise it fails with the
error naming the missing key. -/
theorem C6_routing_resolution (pfx : Option Str) (mapping : List (Str × Str)) :
    (∀ p v, pfx = some p → p ≠ [] → lookupKey p mapping = some v →
        get_page_id_for_pfx pfx mapping = Except.ok v) ∧
    (∀ d, (∀ p, pfx = some p → p = [] ∨ lookupKey p mapping = none) →
        lookupKey defaultKey mapping = some d →
        get_page_id_for_pfx pfx mapping = Except.ok d) ∧
    ((∀ p, pfx = some p → p = [] ∨ lookupKey p mapping = none) →
        lookupKey defaultKey mapping = none →
        get_page_id_for_pfx pfx mapping = Except.error (ConfigError.noMapping pfx)) := by
  refine ⟨?_, ?_, ?_⟩
  · rintro p v rfl hne hv
    simp only [get_page_id_for_pfx]
    rw [if_pos hne, hv]
  · intro d hmiss hd
    cases pfx with
    | none =>
      simp only [get_page_id_for_pfx, fallbackToDefault]
      rw [hd]
    | some p =>
      rcases hmiss p rfl with hp | hp
      · subst hp
        simp only [get_page_id_for_pfx, fallbackToDefault]
        rw [if_neg (by simp), hd]
      · simp only [get_page_id_for_pfx, fallbackToDefault]
        by_cases hne : p = []
        · rw [if_neg (by simp [hne]), hd]
        · rw [if_pos hne, hp, hd]
  · intro hmiss hd
    cases pfx with
    | none =>
      simp only [get_page_id_for_pfx, fallbackToDefault]
      rw [hd]
    | some p =>
      rcases hmiss p rfl with hp | hp
      · subst hp
        simp only [get_page_id_for_pfx, fallbackToDefault]
        rw [if_neg (by simp), hd]
      · simp only [get_page_id_for_pfx, fallbackToDefault]
        by_cases hne : p = []
        · rw [if_neg (by simp [hne]), hd]
        · rw [if_pos hne, hp, hd]

/-- Witness for claim C6 at the spec's concrete example: feat resolves to
its entry, chore falls back to the default, and with no default and an
unknown key resolution fails naming the key. -/
theorem C6_routing_witness :
    get_page_id_for_pfx (some ['f', 'e', 'a', 't'])
        [(['f', 'e', 'a', 't'], ['P', '1']), (defaultKey, ['P', '0'])] = Except.ok ['P', '1'] ∧
    get_page_id_for_pfx (some ['c', 'h', 'o', 'r', 'e'])
        [(['f', 'e', 'a', 't'], ['P', '1']), (defaultKey, ['P', '0'])] = Except.ok ['P', '0'] ∧
    get_page_id_for_pfx (some ['c', 'h', 'o', 'r', 'e'])
        [(['f', 'e', 'a', 't'], ['P', '1'])] =
      Except.error (ConfigError.noMapping (some ['c', 'h', 'o', 'r', 'e'])) := by
  refine ⟨?_, ?_, ?_⟩
  · exact (C6_routing_resolution _ _).1 ['f', 'e', 'a', 't'] ['P', '1'] rfl (by decide) (by decide)
  · apply (C6_routing_resolution _ _).2.1 ['P', '0']
    · intro p hp
      injection hp with hp
      subst hp
      right
      decide
    · decide
  · apply (C6_routing_resolution _ _).2.2
    · intro p hp
      injection hp with hp
      subst hp
      right
      decide
    · decide

/- ------------------------------------------------------------------ -/
/- Claim C5                                                            -/
/- ------------------------------------------------------------------ -/

/-- Claim C5: identifier normalization succeeds on every input whose
hyphen-stripped form has exactly 32 characters, producing the dashed
8-4-4-4-12 form, on which it is idempotent; on every other length it
fails with the invalid-identifier error. -/
theorem C5_format_page_id_idempotent (x : Str) :
    ((x.filter (fun c => c != '-')).length = 32 →
      format_page_id x = Except.ok (insertDashes (cleanId x)) ∧
      format_page_id (insertDashes (cleanId x)) = Except.ok (insertDashes (cleanId x))) ∧
    ((x.filter (fun c => c != '-')).length ≠ 32 →
      format_page_id x = Except.error (IdError.invalidLength x)) := by
  have hlen : (cleanId x).length = (x.filter (fun c => c != '-')).length := by
    unfold cleanId
    rw [List.length_map]
  constructor
  · intro h32
    rw [← hlen] at h32
    constructor
    · simp only [format_page_id]
      rw [if_neg (by simp [h32])]
    · simp only [format_page_id]
      rw [cleanId_insertDashes x h32]
      rw [if_neg (by simp [h32])]
  · intro hne
    rw [← hlen] at hne
    simp only [format_page_id]
    rw [if_pos hne]

/-- Witness for claim C5: a concrete 32-character identifier normalizes,
the result normalizes to itself, and a short identifier is rejected. -/
theorem C5_format_witness :
    format_page_id (List.replicate 32 'a') =
      Except.ok (insertDashes (cleanId (List.replicate 32 'a'))) ∧
    format_page_id (insertDashes (cleanId (List.replicate 32 'a'))) =
      Except.ok (insertDashes (cleanId (List.replicate 32 'a'))) ∧
    format_page_id ['a', 'b'] = Except.error (IdError.invalidLength ['a', 'b']) :=
  ⟨((C5_format_page_id_idempotent (List.replicate 32 'a')).1 (by decide)).1,
   ((C5_format_page_id_idempotent (List.replicate 32 'a')).1 (by decide)).2,
   (C5_format_page_id_idempotent ['a', 'b']).2 (by decide)⟩

/- ------------------------------------------------------------------ -/
/- Claim C10                                                           -/
/- ------------------------------------------------------------------ -/

/-- Claim C10: normalization succeeds exactly when the hyphen-stripped
length is 32, returning the lowercased dashed form; no hexadecimal check
is ever applied. -/
theorem C10_no_hex_validation (x : Str) :
    format_page_id x =
        Except.ok (insertDashes ((x.filter (fun c => c != '-')).map pyLower))
      ↔ (x.filter (fun c => c != '-')).length = 32 := by
  have hlen : (cleanId x).length = (x.filter (fun c => c != '-')).length := by
    unfold cleanId
    rw [List.length_map]
  simp only [format_page_id]
  split
  · rename_i hne
    rw [hlen] at hne
    constructor
    · intro h
      simp at h
    · intro h
      exact absurd h hne
  · rename_i hnn
    rw [hlen] at hnn
    constructor
    · intro _
      exact Decidable.not_not.mp hnn
    · intro _
      show Except.ok (insertDashes (cleanId x)) = _
      unfold cleanId
      rfl

/-- Witness for claim C10: an all-Z identifier is not hexadecimal, yet
normalization accepts it and returns the lowercased dashed form. -/
theorem C10_no_hex_witness :
    format_page_id (List.replicate 32 'Z') =
      Except.ok (insertDashes (((List.replicate 32 'Z').filter (fun c => c != '-')).map pyLower)) :=
  (C10_no_hex_validation (List.replicate 32 'Z')).mpr (by decide)

/- ------------------------------------------------------------------ -/
/- Claim C7                                                            -/
/- ------------------------------------------------------------------ -/

theorem readLoop_exhausts (ps : List PageResponse) (p : PageResponse) (cursor : Option Str)
    (h1 : ∀ q ∈ ps, q.has_more = true) (h2 : p.has_more = false) :
    readLoop (ps ++ [p]) cursor =
      (((ps ++ [p]).map PageResponse.results).flatten,
       (cursor :: ps.map PageResponse.next_cursor).map
         (fun c => (⟨100, sentCursor c⟩ : ReadRequest))) := by
  induction ps generalizing cursor with
  | nil => simp [readLoop, h2]
  | cons q qs ih =>
    have hq : q.has_more = true := h1 q (List.mem_cons_self q qs)
    have ih2 := ih q.next_cursor (fun r hr => h1 r (List.mem_cons_of_mem q hr))
    simp [readLoop, hq, ih2]

/-- Claim C7: fed any response sequence whose last page has has_more false
and all earlier pages has_more true, the reader issues one request of page
size 100 per page, threads each response's next_cursor into the following
request, accumulates the blocks of all pages in their original order, and
only then renders the accumulated list. -/
theorem C7_pagination (ps : List PageResponse) (p : PageResponse)
    (h1 : ∀ q ∈ ps, q.has_more = true) (h2 : p.has_more = false) :
    (∀ cursor, readLoop (ps ++ [p]) cursor =
      (((ps ++ [p]).map PageResponse.results).flatten,
       (cursor :: ps.map PageResponse.next_cursor).map
         (fun c => (⟨100, sentCursor c⟩ : ReadRequest)))) ∧
    get_notion_page_content (ps ++ [p]) =
      renderRawBlocks (((ps ++ [p]).map PageResponse.results).flatten) := by
  constructor
  · intro cursor
    exact readLoop_exhausts ps p cursor h1 h2
  · show renderRawBlocks (readLoop (ps ++ [p]) none).1 = _
    rw [readLoop_exhausts ps p none h1 h2]

/-- Witness for claim C7: three pages with has_more true, true, false are
all consumed, their blocks are gathered in order, and three requests of
page size 100 are issued with the threaded cursors. -/
theorem C7_pagination_witness :
    readLoop [c7Page1, c7Page2, c7Page3] none =
      ([⟨some paragraphTag, [['a']]⟩, ⟨some paragraphTag, [['b']]⟩,
        ⟨some paragraphTag, [['c']]⟩],
       [⟨100, none⟩, ⟨100, some ['c', '1']⟩, ⟨100, some ['c', '2']⟩]) := by
  have h := (C7_pagination [c7Page1, c7Page2] c7Page3 (by decide) (by decide)).1 none
  rw [show ([c7Page1, c7Page2] ++ [c7Page3] : List PageResponse) =
      [c7Page1, c7Page2, c7Page3] from rfl] at h
  rw [h]
  decide

/- ------------------------------------------------------------------ -/
/- Claim C8                                                            -/
/- ------------------------------------------------------------------ -/

/-- Claim C8: the tracking step always issues the existence query (an
exact-match filter on the Link property with page size 1) first; the
trace is either the lone query or the query followed by exactly one
insert; and when the store reports a matching row the insert is
skipped. -/
theorem C8_track_idempotent (db : TrackerStore) (info : PrInfo) (pfx : Option Str) :
    ((track_pr db info pfx).2.head? =
      some (TrackEvent.queryDb (pr_exists_payload info.url))) ∧
    ((pr_exists_payload info.url).page_size = 1 ∧
      (pr_exists_payload info.url).filter_property = linkProp ∧
      (pr_exists_payload info.url).url_equals = info.url) ∧
    ((track_pr db info pfx).2 = [TrackEvent.queryDb (pr_exists_payload info.url)] ∨
      (track_pr db info pfx).2 =
        [TrackEvent.queryDb (pr_exists_payload info.url),
         TrackEvent.insertRow (mk_pr_row info pfx)]) ∧
    (∀ rows, db.queryDatabase (pr_exists_payload info.url) = HttpResult.response true rows →
        rows ≠ [] →
        (track_pr db info pfx).2 = [TrackEvent.queryDb (pr_exists_payload info.url)]) := by
  have hshape :
      ((track_pr db info pfx).2 = [TrackEvent.queryDb (pr_exists_payload info.url)] ∨
        (track_pr db info pfx).2 =
          [TrackEvent.queryDb (pr_exists_payload info.url),
           TrackEvent.insertRow (mk_pr_row info pfx)]) := by
    simp only [track_pr, check_pr_exists_in_database]
    rcases db.queryDatabase (pr_exists_payload info.url) with _ | ⟨ok, rows⟩
    · left
      rfl
    · rcases ok with _ | _
      · left
        rfl
      · simp only [raise_for_status, if_pos]
        rcases hb : decide (0 < rows.length) with _ | _
        · rcases db.createPage (mk_pr_row info pfx) with _ | ⟨ok2, body⟩
          · right
            rfl
          · rcases ok2 with _ | _ <;> · right
                                        rfl
        · left
          rfl
  refine ⟨?_, ⟨rfl, rfl, rfl⟩, hshape, ?_⟩
  · rcases hshape with h | h <;> rw [h] <;> rfl
  · intro rows hq hne
    have hlen : decide (0 < rows.length) = true := by
      simp [List.length_pos]
      exact hne
    simp only [track_pr, check_pr_exists_in_database, hq, raise_for_status, if_pos, hlen]

/- ------------------------------------------------------------------ -/
/- Claims C1 and C2: lemmas about the update path                      -/
/- ------------------------------------------------------------------ -/

theorem chunkFuel_flatten (fuel : Nat) (l : List Block) (h : l.length ≤ fuel) :
    (chunkFuel fuel l).flatten = l := by
  induction fuel generalizing l with
  | zero =>
    cases l with
    | nil => rfl
    | cons b rest => simp at h
  | succ fuel ih =>
    cases l with
    | nil => rfl
    | cons b rest =>
      simp only [chunkFuel, List.flatten_cons]
      rw [ih (rest.drop 99) ?_]
      · calc (b :: rest).take 100 ++ rest.drop 99
            = (b :: rest).take 100 ++ (b :: rest).drop 100 := by rw [List.drop_succ_cons]
          _ = b :: rest := List.take_append_drop 100 (b :: rest)
      · simp only [List.length_drop]
        simp at h
        omega

theorem chunkFuel_le (fuel : Nat) (l : List Block) (h : l.length ≤ fuel) :
    ∀ c ∈ chunkFuel fuel l, c.length ≤ 100 := by
  induction fuel generalizing l with
  | zero =>
    cases l with
    | nil =>
      intro c hc
      cases hc
    | cons b rest => simp at h
  | succ fuel ih =>
    cases l with
    | nil =>
      intro c hc
      cases hc
    | cons b rest =>
      intro c hc
      simp only [chunkFuel] at hc
      rcases List.mem_cons.mp hc with rfl | hc2
      · rw [List.length_take]
        exact min_le_left _ _
      · apply ih (rest.drop 99) ?_ c hc2
        simp only [List.length_drop]
        simp at h
        omega

theorem chunkList100_flatten (l : List Block) : (chunkList100 l).flatten = l :=
  chunkFuel_flatten l.length l (le_refl _)

theorem chunkList100_le (l : List Block) : ∀ c ∈ chunkList100 l, c.length ≤ 100 :=
  chunkFuel_le l.length l (le_refl _)

theorem deleteLoop_ok (store : Store) (bs : List Str)
    (h : ∀ b ∈ bs, store.deleteBlock b ≠ HttpResult.connError) :
    deleteLoop store bs = (Except.ok (), bs.map StoreEvent.deleteBlock) := by
  induction bs with
  | nil => rfl
  | cons b t ih =>
    have hb := h b (List.mem_cons_self b t)
    rcases hd : store.deleteBlock b with _ | ⟨ok, body⟩
    · exact absurd hd hb
    · simp [deleteLoop, hd, ih (fun x hx => h x (List.mem_cons_of_mem b hx))]

theorem deleteLoop_ok_iff (store : Store) (bs : List Str) :
    (deleteLoop store bs).1 = Except.ok () ↔
      ∀ b ∈ bs, store.deleteBlock b ≠ HttpResult.connError := by
  induction bs with
  | nil =>
    constructor
    · intro _ b hb
      cases hb
    · intro _
      rfl
  | cons b t ih =>
    rcases hd : store.deleteBlock b with _ | ⟨ok, body⟩
    · constructor
      · intro h
        rw [show deleteLoop store (b :: t) =
            (Except.error TransportError.connectionError, [StoreEvent.deleteBlock b]) from by
          simp [deleteLoop, hd]] at h
        cases h
      · intro h
        exact absurd hd (h b (List.mem_cons_self b t))
    · have hstep : (deleteLoop store (b :: t)).1 = (deleteLoop store t).1 := by
        simp [deleteLoop, hd]
      rw [hstep]
      constructor
      · intro h x hx
        rcases List.mem_cons.mp hx with rfl | hx2
        · rw [hd]
          intro hcon
          cases hcon
        · exact (ih.mp h) x hx2
      · intro h
        exact ih.mpr (fun x hx => h x (List.mem_cons_of_mem b hx))

theorem appendLoop_ok (store : Store) (cs : List (List Block))
    (h : ∀ c ∈ cs, store.patchChildren c = HttpResult.response true ()) :
    appendLoop store cs = (Except.ok (), cs.map StoreEvent.appendChildren) := by
  induction cs with
  | nil => rfl
  | cons c t ih =>
    have hc := h c (List.mem_cons_self c t)
    simp [appendLoop, hc, raise_for_status,
      ih (fun x hx => h x (List.mem_cons_of_mem c hx))]

theorem appendLoop_ok_iff (store : Store) (cs : List (List Block)) :
    (appendLoop store cs).1 = Except.ok () ↔
      ∀ c ∈ cs, store.patchChildren c = HttpResult.response true () := by
  induction cs with
  | nil =>
    constructor
    · intro _ c hc
      cases hc
    · intro _
      rfl
  | cons c t ih =>
    rcases hd : store.patchChildren c with _ | ⟨ok, body⟩
    · constructor
      · intro h
        rw [show appendLoop store (c :: t) =
            (Except.error TransportError.connectionError, [StoreEvent.appendChildren c]) from by
          simp [appendLoop, raise_for_status, hd]] at h
        cases h
      · intro h
        have := h c (List.mem_cons_self c t)
        rw [hd] at this
        cases this
    · cases ok with
      | false =>
        constructor
        · intro h
          rw [show appendLoop store (c :: t) =
              (Except.error TransportError.httpError, [StoreEvent.appendChildren c]) from by
            simp [appendLoop, raise_for_status, hd]] at h
          cases h
        · intro h
          have := h c (List.mem_cons_self c t)
          rw [hd] at this
          injection this with h1 h2
          cases h1
      | true =>
        have hstep : (appendLoop store (c :: t)).1 = (appendLoop store t).1 := by
          simp [appendLoop, raise_for_status, hd]
        rw [hstep]
        constructor
        · intro h x hx
          rcases List.mem_cons.mp hx with rfl | hx2
          · rw [hd]
          · exact (ih.mp h) x hx2
        · intro h
          exact ih.mpr (fun x hx => h x (List.mem_cons_of_mem c hx))

/-- Claim C2: on a run in which the store answers every request, the page
replacement issues exactly one unpaginated listing, then one delete per
listed block in order, then the appends of the 100-bounded batches in
order — deletion strictly precedes re-insertion and the concatenation of
the batches is exactly the converter's output sequence. -/
theorem C2_update_protocol (store : Store) (new_blocks : List Block) (bs : List Str)
    (hls : store.getChildrenOnce = HttpResult.response true bs)
    (hdel : ∀ b ∈ bs, store.deleteBlock b ≠ HttpResult.connError)
    (hpat : ∀ c ∈ chunkList100 new_blocks,
      store.patchChildren c = HttpResult.response true ()) :
    update_notion_page store new_blocks =
      (Except.ok (),
       StoreEvent.listChildren :: (bs.map StoreEvent.deleteBlock ++
         (chunkList100 new_blocks).map StoreEvent.appendChildren)) ∧
    (chunkList100 new_blocks).flatten = new_blocks ∧
    (∀ c ∈ chunkList100 new_blocks, c.length ≤ 100) := by
  refine ⟨?_, chunkList100_flatten new_blocks, chunkList100_le new_blocks⟩
  have hda : delete_all_blocks store =
      (Except.ok (), StoreEvent.listChildren :: bs.map StoreEvent.deleteBlock) := by
    simp [delete_all_blocks, hls, raise_for_status, deleteLoop_ok store bs hdel]
  simp [update_notion_page, hda, appendLoop_ok store (chunkList100 new_blocks) hpat]

/-- Witness for claim C2: with two existing blocks and two new blocks the
trace is the listing, the two deletes in order, then one append batch
carrying the new blocks in converter order. -/
theorem C2_update_witness :
    update_notion_page c2Store c2Blocks =
      (Except.ok (),
       [StoreEvent.listChildren, StoreEvent.deleteBlock ['b', '1'],
        StoreEvent.deleteBlock ['b', '2'], StoreEvent.appendChildren c2Blocks]) := by
  have h := (C2_update_protocol c2Store c2Blocks [['b', '1'], ['b', '2']]
    rfl (by decide) (by decide)).1
  rw [h]
  rfl

/-- Counterexample to claim C1 as stated: a per-block delete request is
issued and answered with an HTTP error status, yet the run completes
successfully — the delete response is never checked (the source calls
requests.delete without raise_for_status), so this failure is silently
ignored rather than fatal. -/
theorem C1_counterexample :
    c1Store.deleteBlock ['b', '1'] = HttpResult.response false () ∧
    StoreEvent.deleteBlock ['b', '1'] ∈ (update_notion_page c1Store []).2 ∧
    (update_notion_page c1Store []).1 = Except.ok () := by
  refine ⟨rfl, ?_, rfl⟩
  rw [show (update_notion_page c1Store []).2 =
      [StoreEvent.listChildren, StoreEvent.deleteBlock ['b', '1']] from rfl]
  exact List.mem_cons_of_mem _ (List.mem_cons_self _ _)

/-- Claim C1, amended: the run of the page-replacement path succeeds
exactly when the children listing succeeds, no per-block delete fails at
the connection level, and every batch append succeeds — so listing and
append failures (connection-level or HTTP) abort the run with no retry, a
connection-level delete failure aborts it, but an HTTP error response to a
per-block delete is silently ignored. -/
theorem C1_failure_fatality (store : Store) (new_blocks : List Block) :
    (update_notion_page store new_blocks).1 = Except.ok () ↔
      ((∃ bs, store.getChildrenOnce = HttpResult.response true bs ∧
        (∀ b ∈ bs, store.deleteBlock b ≠ HttpResult.connError)) ∧
      (∀ c ∈ chunkList100 new_blocks,
        store.patchChildren c = HttpResult.response true ())) := by
  rcases hg : store.getChildrenOnce with _ | ⟨ok, bs⟩
  · have hu : update_notion_page store new_blocks =
        (Except.error TransportError.connectionError, [StoreEvent.listChildren]) := by
      simp [update_notion_page, delete_all_blocks, hg, raise_for_status]
    rw [hu]
    constructor
    · intro h
      cases h
    · rintro ⟨⟨bs2, hbs, -⟩, -⟩
      cases hbs
  · cases ok with
    | false =>
      have hu : update_notion_page store new_blocks =
          (Except.error TransportError.httpError, [StoreEvent.listChildren]) := by
        simp [update_notion_page, delete_all_blocks, hg, raise_for_status]
      rw [hu]
      constructor
      · intro h
        cases h
      · rintro ⟨⟨bs2, hbs, -⟩, -⟩
        injection hbs with h1 h2
        cases h1
    | true =>
      have hda : delete_all_blocks store =
          ((deleteLoop store bs).1, StoreEvent.listChildren :: (deleteLoop store bs).2) := by
        simp [delete_all_blocks, hg, raise_for_status]
      rcases hdl : deleteLoop store bs with ⟨res, tr⟩
      cases res with
      | error e =>
        have hu : (update_notion_page store new_blocks).1 = Except.error e := by
          simp [update_notion_page, hda, hdl]
        rw [hu]
        constructor
        · intro h
          cases h
        · rintro ⟨⟨bs2, hbs, hdel⟩, -⟩
          injection hbs with h1 h2
          subst h2
          have hok : (deleteLoop store bs).1 = Except.ok () :=
            (deleteLoop_ok_iff store bs).mpr hdel
          rw [hdl] at hok
          cases hok
      | ok u =>
        have hu : (update_notion_page store new_blocks).1 =
            (appendLoop store (chunkList100 new_blocks)).1 := by
          simp [update_notion_page, hda, hdl]
        rw [hu, appendLoop_ok_iff]
        constructor
        · intro h
          refine ⟨⟨bs, rfl, ?_⟩, h⟩
          apply (deleteLoop_ok_iff store bs).mp
          rw [hdl]
        · rintro ⟨-, h⟩
          exact h

/-- Witness for amended claim C1: a failing batch append makes the run
fail, while the same store with successful appends lets it succeed. -/
theorem C1_failure_witness :
    (update_notion_page c1OkStore [⟨BlockType.paragraph, ['x']⟩]).1 ≠ Except.ok () ∧
    (update_notion_page c1Store []).1 = Except.ok () := by
  constructor
  · intro h
    have h2 := (C1_failure_fatality c1OkStore [⟨BlockType.paragraph, ['x']⟩]).mp h
    have h3 := h2.2 [⟨BlockType.paragraph, ['x']⟩] (by decide)
    rw [show c1OkStore.patchChildren [⟨BlockType.paragraph, ['x']⟩] =
        HttpResult.response false () from rfl] at h3
    injection h3 with h4 h5
    cases h4
  · apply (C1_failure_fatality c1Store []).mpr
    refine ⟨⟨[['b', '1']], rfl, ?_⟩, ?_⟩
    · intro b hb
      rw [show c1Store.deleteBlock b = HttpResult.response false () from rfl]
      intro hcon
      cases hcon
    · intro c hc
      rw [show chunkList100 [] = [] from rfl] at hc
      cases hc

/-- Witness for claim C8: when the store reports an existing row for the
URL, the trace is the lone existence query with page size 1 — no insert
is issued. -/
theorem C8_track_witness :
    (track_pr c8Db c8Info none).2 = [TrackEvent.queryDb (pr_exists_payload ['u'])] ∧
    (pr_exists_payload ['u']).page_size = 1 := by
  constructor
  · exact (C8_track_idempotent c8Db c8Info none).2.2.2 [['r', '1']] rfl (by decide)
  · exact (C8_track_idempotent c8Db c8Info none).2.1.1

/- ------------------------------------------------------------------ -/
/- Claim C3                                                            -/
/- ------------------------------------------------------------------ -/

theorem marker_pref (m t : Str) : m.isPrefixOf t = true ↔ ∃ r, t = m ++ r := by
  rw [List.isPrefixOf_iff_prefix]
  constructor
  · rintro ⟨r, hr⟩
    exact ⟨r, hr.symm⟩
  · rintro ⟨r, rfl⟩
    exact ⟨r, rfl⟩

theorem num_head (t : Str) (r : Str) (hn : numberedRemainder t = some r) :
    ∃ c t', t = c :: t' ∧ c.isDigit = true := by
  cases t with
  | nil => simp [numberedRemainder] at hn
  | cons c t' =>
    refine ⟨c, t', rfl, ?_⟩
    by_contra hc
    rw [Bool.not_eq_true] at hc
    have he : (c :: t').takeWhile Char.isDigit = [] := by
      simp [List.takeWhile_cons, hc]
    rw [numberedRemainder, if_pos he] at hn
    cases hn

theorem beq_false_of_digit {c : Char} (a : Char) (hc : c.isDigit = true)
    (ha : a.isDigit = false) : (a == c) = false := by
  by_cases h : a = c
  · subst h
    rw [hc] at ha
    cases ha
  · exact beq_eq_false_iff_ne.mpr h

theorem chain_eq_parseStripped (t : Str) :
    (match numberedRemainder t with
     | some r => ([⟨BlockType.numbered, r⟩] : List Block)
     | none =>
       if dashMarker.isPrefixOf t || bulletMarker.isPrefixOf t then
         [⟨BlockType.bulleted, t.drop 2⟩]
       else if h3Marker.isPrefixOf t then [⟨BlockType.heading3, t.drop 4⟩]
       else if h2Marker.isPrefixOf t then [⟨BlockType.heading2, t.drop 3⟩]
       else if h1Marker.isPrefixOf t then [⟨BlockType.heading1, t.drop 2⟩]
       else [⟨BlockType.paragraph, t⟩]) = [parseStripped t] := by
  rcases hn : numberedRemainder t with _ | r
  · by_cases p1 : h1Marker.isPrefixOf t
    · obtain ⟨r1, rfl⟩ := (marker_pref h1Marker t).mp p1
      simp [parseStripped, List.isPrefixOf, h1Marker, h2Marker, h3Marker,
        dashMarker, bulletMarker, hn]
    · by_cases p2 : h2Marker.isPrefixOf t
      · obtain ⟨r1, rfl⟩ := (marker_pref h2Marker t).mp p2
        simp [parseStripped, List.isPrefixOf, h1Marker, h2Marker, h3Marker,
          dashMarker, bulletMarker, hn]
      · by_cases p3 : h3Marker.isPrefixOf t
        · obtain ⟨r1, rfl⟩ := (marker_pref h3Marker t).mp p3
          simp [parseStripped, List.isPrefixOf, h1Marker, h2Marker, h3Marker,
            dashMarker, bulletMarker, hn]
        · by_cases p4 : dashMarker.isPrefixOf t
          · obtain ⟨r1, rfl⟩ := (marker_pref dashMarker t).mp p4
            simp [parseStripped, List.isPrefixOf, h1Marker, h2Marker, h3Marker,
              dashMarker, bulletMarker, hn]
          · by_cases p5 : bulletMarker.isPrefixOf t
            · obtain ⟨r1, rfl⟩ := (marker_pref bulletMarker t).mp p5
              simp [parseStripped, List.isPrefixOf, h1Marker, h2Marker, h3Marker,
                dashMarker, bulletMarker, hn]
            · rw [Bool.not_eq_true] at p1 p2 p3 p4 p5
              simp [parseStripped, p1, p2, p3, p4, p5, hn]
  · obtain ⟨c, t', rfl, hc⟩ := num_head t r hn
    have b1 : ('#' == c) = false := beq_false_of_digit '#' hc (by decide)
    have b2 : ('-' == c) = false := beq_false_of_digit '-' hc (by decide)
    have b3 : ('•' == c) = false := beq_false_of_digit '•' hc (by decide)
    simp [parseStripped, List.isPrefixOf, h1Marker, h2Marker, h3Marker,
      dashMarker, bulletMarker, b1, b2, b3, hn]

theorem amendedLineRule_eq_parseLine (line : Str) :
    amendedLineRule line = (parseLine line).elim [] (fun b => [b]) := by
  simp only [amendedLineRule, parseLine]
  by_cases ht : rstrip line = []
  · simp [ht]
  · rw [if_neg ht, if_neg ht]
    rw [show (some (parseStripped (rstrip line))).elim ([] : List Block) (fun b => [b]) =
        [parseStripped (rstrip line)] from rfl]
    exact chain_eq_parseStripped (rstrip line)

theorem filterMap_parse_eq_amended (ls : List Str) :
    ls.filterMap parseLine = (ls.map amendedLineRule).flatten := by
  induction ls with
  | nil => rfl
  | cons l t ih =>
    rw [List.map_cons, List.flatten_cons, ← ih, amendedLineRule_eq_parseLine l]
    cases hpl : parseLine l with
    | none => simp [List.filterMap_cons, hpl]
    | some b => simp [List.filterMap_cons, hpl]

/-- Counterexample to claim C3 as stated: the rule table with a literal
space in the numbered marker classifies the tab line as a paragraph, but
the source's regex whitespace class accepts the tab and produces a
numbered item. -/
theorem C3_counterexample :
    markdown_to_notion_blocks ['1', '.', '\t', 'x'] = [⟨BlockType.numbered, ['x']⟩] ∧
    ((splitLines ['1', '.', '\t', 'x']).map claimLineRule).flatten =
      [⟨BlockType.paragraph, ['1', '.', '\t', 'x']⟩] ∧
    markdown_to_notion_blocks ['1', '.', '\t', 'x'] ≠
      ((splitLines ['1', '.', '\t', 'x']).map claimLineRule).flatten := by
  refine ⟨?_, ?_, ?_⟩ <;> decide

/-- Claim C3, amended: for every markdown input the converter equals the
claim's per-line rule table — blank (right-trimmed) lines produce no
block, the heading, bullet and numbered rules carry the remainder after
their marker, everything else is a paragraph — with the numbered marker
read as digits, a dot and one whitespace character (not only a space). -/
theorem C3_converter_rule_table (markdown : Str) :
    markdown_to_notion_blocks markdown =
      ((splitLines markdown).map amendedLineRule).flatten :=
  filterMap_parse_eq_amended (splitLines markdown)

theorem renderRawBlock_blockToRaw (b : Block) :
    renderRawBlock (blockToRaw b) = some (lineMarker b.btype ++ (b.text ++ [])) := by
  cases b with
  | mk ty txt => cases ty <;> rfl

theorem dropWhile_cons_eq_self_iff (p : Char → Bool) (c : Char) (l : Str) :
    List.dropWhile p (c :: l) = c :: l ↔ p c = false := by
  constructor
  · intro h
    by_contra hpc
    rw [Bool.not_eq_false] at hpc
    rw [List.dropWhile_cons, if_pos hpc] at h
    have hlen := congrArg List.length h
    have hle := (List.dropWhile_sublist (l := l) p).length_le
    simp at hlen
    omega
  · intro h
    rw [List.dropWhile_cons, if_neg (by simp [h])]

theorem rstrip_eq_self_iff (x : Str) :
    rstrip x = x ↔ ∀ c, x.reverse.head? = some c → isPySpace c = false := by
  unfold rstrip
  constructor
  · intro h c hc
    have h2 : List.dropWhile isPySpace x.reverse = x.reverse := by
      have h3 := congrArg List.reverse h
      rwa [List.reverse_reverse] at h3
    rcases hxr : x.reverse with _ | ⟨a, l⟩
    · rw [hxr] at hc
      cases hc
    · rw [hxr] at hc h2
      injection hc with hc
      subst hc
      exact (dropWhile_cons_eq_self_iff _ _ _).mp h2
  · intro h
    rcases hxr : x.reverse with _ | ⟨a, l⟩
    · have hx : x = [] := by rwa [List.reverse_eq_nil_iff] at hxr
      rw [hx]
      rfl
    · have hd := (dropWhile_cons_eq_self_iff isPySpace a l).mpr (h a (by rw [hxr]; rfl))
      rw [hd, ← hxr, List.reverse_reverse]

theorem head?_dropWhile_false (p : Char → Bool) (l : Str) (c : Char)
    (h : (l.dropWhile p).head? = some c) : p c = false := by
  induction l with
  | nil => cases h
  | cons a t ih =>
    rw [List.dropWhile_cons] at h
    split at h
    · exact ih h
    · rename_i hpa
      injection h with h
      subst h
      rwa [Bool.not_eq_true] at hpa

theorem rstrip_idem (x : Str) : rstrip (rstrip x) = rstrip x := by
  apply (rstrip_eq_self_iff (rstrip x)).mpr
  intro c hc
  unfold rstrip at hc
  rw [List.reverse_reverse] at hc
  exact head?_dropWhile_false isPySpace x.reverse c hc

theorem rstrip_swap (m1 m2 : Str) (q : Char) (qs : Str)
    (hr : rstrip (m1 ++ q :: qs) = m1 ++ q :: qs) :
    rstrip (m2 ++ q :: qs) = m2 ++ q :: qs := by
  rw [rstrip_eq_self_iff] at hr ⊢
  intro c hc
  apply hr c
  rcases hqr : (q :: qs).reverse with _ | ⟨c0, cr⟩
  · have hlen := congrArg List.length hqr
    simp at hlen
  · rw [List.reverse_append, hqr] at hc ⊢
    simp at hc ⊢
    exact hc

theorem parseLine_of_stripped (t : Str) (ht : t ≠ []) (hr : rstrip t = t) :
    parseLine t = some (parseStripped t) := by
  simp [parseLine, hr, ht]

theorem parseLine_some_struct (line : Str) (b : Block) (h : parseLine line = some b) :
    b = parseStripped (rstrip line) ∧ rstrip line ≠ [] := by
  unfold parseLine at h
  by_cases ht : rstrip line = []
  · simp [ht] at h
  · simp only [if_neg ht] at h
    injection h with h
    exact ⟨h.symm, ht⟩

theorem numbered_structure (t payload : Str) (hn : numberedRemainder t = some payload) :
    ∃ ds c, ds ≠ [] ∧ (∀ d ∈ ds, d.isDigit = true) ∧ isPySpace c = true ∧
      t = ds ++ '.' :: c :: payload := by
  unfold numberedRemainder at hn
  by_cases he : t.takeWhile Char.isDigit = []
  · rw [if_pos he] at hn
    cases hn
  · rw [if_neg he] at hn
    split at hn
    · rename_i c r heq
      split at hn
      · rename_i hsp
        injection hn with hn
        subst hn
        refine ⟨t.takeWhile Char.isDigit, c, he,
          (fun d hd => List.mem_takeWhile_imp hd), hsp, ?_⟩
        rw [← heq]
        exact (List.takeWhile_append_dropWhile Char.isDigit t).symm
      · cases hn
    · cases hn

theorem parseLine_renderedLine (t : Str) (ht : t ≠ []) (hr : rstrip t = t) :
    parseLine (renderedLine (parseStripped t)) = some (parseStripped t) := by
  by_cases p1 : h1Marker.isPrefixOf t
  · obtain ⟨payload, htt⟩ := (marker_pref h1Marker t).mp p1
    subst htt
    have hps : parseStripped (h1Marker ++ payload) =
        ⟨BlockType.heading1, payload⟩ := by simp [parseStripped, List.isPrefixOf, h1Marker, h2Marker, h3Marker, dashMarker, bulletMarker]
    rw [hps]
    have hre : renderedLine ⟨BlockType.heading1, payload⟩ = h1Marker ++ payload := rfl
    rw [hre, parseLine_of_stripped (h1Marker ++ payload) ht hr, hps]
  · by_cases p2 : h2Marker.isPrefixOf t
    · obtain ⟨payload, htt⟩ := (marker_pref h2Marker t).mp p2
      subst htt
      have hps : parseStripped (h2Marker ++ payload) =
          ⟨BlockType.heading2, payload⟩ := by simp [parseStripped, List.isPrefixOf, h1Marker, h2Marker, h3Marker, dashMarker, bulletMarker]
      rw [hps]
      have hre : renderedLine ⟨BlockType.heading2, payload⟩ = h2Marker ++ payload := rfl
      rw [hre, parseLine_of_stripped (h2Marker ++ payload) ht hr, hps]
    · by_cases p3 : h3Marker.isPrefixOf t
      · obtain ⟨payload, htt⟩ := (marker_pref h3Marker t).mp p3
        subst htt
        have hps : parseStripped (h3Marker ++ payload) =
            ⟨BlockType.heading3, payload⟩ := by simp [parseStripped, List.isPrefixOf, h1Marker, h2Marker, h3Marker, dashMarker, bulletMarker]
        rw [hps]
        have hre : renderedLine ⟨BlockType.heading3, payload⟩ = h3Marker ++ payload := rfl
        rw [hre, parseLine_of_stripped (h3Marker ++ payload) ht hr, hps]
      · by_cases p4 : dashMarker.isPrefixOf t
        · obtain ⟨payload, htt⟩ := (marker_pref dashMarker t).mp p4
          subst htt
          have hps : parseStripped (dashMarker ++ payload) =
              ⟨BlockType.bulleted, payload⟩ := by simp [parseStripped, List.isPrefixOf, h1Marker, h2Marker, h3Marker, dashMarker, bulletMarker]
          rw [hps]
          have hre : renderedLine ⟨BlockType.bulleted, payload⟩ =
              bulletMarker ++ payload := rfl
          rw [hre]
          rcases payload with _ | ⟨q, qs⟩
          · exfalso
            exact absurd hr (by decide)
          · have hr2 : rstrip (bulletMarker ++ q :: qs) = bulletMarker ++ q :: qs :=
              rstrip_swap dashMarker bulletMarker q qs hr
            rw [parseLine_of_stripped (bulletMarker ++ q :: qs) (by simp [bulletMarker]) hr2]
            simp [parseStripped, List.isPrefixOf, h1Marker, h2Marker, h3Marker, dashMarker,
              bulletMarker]
        · by_cases p5 : bulletMarker.isPrefixOf t
          · obtain ⟨payload, htt⟩ := (marker_pref bulletMarker t).mp p5
            subst htt
            have hps : parseStripped (bulletMarker ++ payload) =
                ⟨BlockType.bulleted, payload⟩ := by simp [parseStripped, List.isPrefixOf, h1Marker, h2Marker, h3Marker, dashMarker, bulletMarker]
            rw [hps]
            have hre : renderedLine ⟨BlockType.bulleted, payload⟩ =
                bulletMarker ++ payload := rfl
            rw [hre, parseLine_of_stripped (bulletMarker ++ payload) ht hr, hps]
          · rcases hn : numberedRemainder t with _ | payload
            · -- paragraph case: the rendered line is the line itself
              rw [Bool.not_eq_true] at p1 p2 p3 p4 p5
              have hps : parseStripped t = ⟨BlockType.paragraph, t⟩ := by
                simp [parseStripped, p1, p2, p3, p4, p5, hn]
              rw [hps]
              have hre : renderedLine ⟨BlockType.paragraph, t⟩ = t := by
                simp [renderedLine, lineMarker]
              rw [hre, parseLine_of_stripped t ht hr, hps]
            · -- numbered case
              rw [Bool.not_eq_true] at p1 p2 p3 p4 p5
              have hps : parseStripped t = ⟨BlockType.numbered, payload⟩ := by
                simp [parseStripped, p1, p2, p3, p4, p5, hn]
              rw [hps]
              have hre : renderedLine ⟨BlockType.numbered, payload⟩ =
                  ['1', '.', ' '] ++ payload := rfl
              rw [hre]
              obtain ⟨ds, csp, hds, hdig, hsp, hteq⟩ := numbered_structure t payload hn
              rcases payload with _ | ⟨q, qs⟩
              · exfalso
                rw [rstrip_eq_self_iff] at hr
                have hrev : t.reverse.head? = some csp := by
                  rw [hteq]
                  rw [show (ds ++ ['.', csp] : Str).reverse = csp :: '.' :: ds.reverse from by
                    simp]
                  rfl
                have := hr csp hrev
                rw [hsp] at this
                cases this
              · have hr2 : rstrip (['1', '.', ' '] ++ q :: qs) =
                    ['1', '.', ' '] ++ q :: qs := by
                  apply rstrip_swap (ds ++ ['.', csp]) (['1', '.', ' ']) q qs
                  rw [show ((ds ++ ['.', csp]) ++ q :: qs : Str) =
                      ds ++ '.' :: csp :: q :: qs from by simp]
                  rw [← hteq]
                  exact hr
                rw [parseLine_of_stripped (['1', '.', ' '] ++ q :: qs) (by simp) hr2]
                simp [parseStripped, List.isPrefixOf, h1Marker, h2Marker, h3Marker, dashMarker,
                  bulletMarker, numberedRemainder, List.takeWhile_cons, List.dropWhile_cons,
                  show Char.isDigit '1' = true from by decide,
                  show Char.isDigit '.' = false from by decide,
                  show isPySpace ' ' = true from by decide]

theorem parseLine_roundtrip (line : Str) (b : Block) (h : parseLine line = some b) :
    parseLine (renderedLine b) = some b := by
  obtain ⟨hb, ht⟩ := parseLine_some_struct line b h
  subst hb
  exact parseLine_renderedLine (rstrip line) ht (rstrip_idem line)

theorem splitLines_ne_nil (s : Str) : splitLines s ≠ [] := by
  cases s with
  | nil => simp [splitLines]
  | cons c cs =>
    rw [splitLines]
    rcases hsp : splitLines cs with _ | ⟨l, ls⟩
    · simp
    · by_cases hc : c = '\n' <;> simp [hc]

theorem splitLines_cons_eq (c : Char) (cs : Str) :
    splitLines (c :: cs) =
      if c = '\n' then [] :: splitLines cs
      else (c :: (splitLines cs).headI) :: (splitLines cs).tail := by
  rw [splitLines]
  rcases hsp : splitLines cs with _ | ⟨l0, ls⟩
  · exact absurd hsp (splitLines_ne_nil cs)
  · by_cases hc : c = '\n' <;> simp [hc]

theorem splitLines_no_newline (s : Str) : ∀ l ∈ splitLines s, '\n' ∉ l := by
  induction s with
  | nil =>
    intro l hl
    simp [splitLines] at hl
    subst hl
    simp
  | cons c cs ih =>
    intro l hl
    rw [splitLines_cons_eq] at hl
    by_cases hc : c = '\n'
    · rw [if_pos hc] at hl
      rcases List.mem_cons.mp hl with rfl | hl2
      · simp
      · exact ih l hl2
    · rw [if_neg hc] at hl
      rcases List.mem_cons.mp hl with rfl | hl2
      · intro hmem
        rcases List.mem_cons.mp hmem with h1 | h2
        · exact hc h1.symm
        · rcases hsp : splitLines cs with _ | ⟨l0, ls⟩
          · exact absurd hsp (splitLines_ne_nil cs)
          · rw [hsp] at h2
            exact ih l0 (by rw [hsp]; exact List.mem_cons_self l0 ls) h2
      · rcases hsp : splitLines cs with _ | ⟨l0, ls⟩
        · exact absurd hsp (splitLines_ne_nil cs)
        · rw [hsp] at hl2
          exact ih l (by rw [hsp]; exact List.mem_cons_of_mem l0 hl2)

theorem splitLines_no_nl (l : Str) (hnl : '\n' ∉ l) : splitLines l = [l] := by
  induction l with
  | nil => rfl
  | cons c cs ih =>
    have hc : c ≠ '\n' := fun h => hnl (h ▸ List.mem_cons_self c cs)
    rw [splitLines, ih (fun hm => hnl (List.mem_cons_of_mem c hm))]
    simp [hc]

theorem splitLines_append_newline (l : Str) (hnl : '\n' ∉ l) (rest : Str) :
    splitLines (l ++ '\n' :: rest) = l :: splitLines rest := by
  induction l with
  | nil =>
    simp only [List.nil_append]
    rw [splitLines]
    rcases hsp : splitLines rest with _ | ⟨l0, ls⟩
    · exact absurd hsp (splitLines_ne_nil rest)
    · simp
  | cons c cs ih =>
    have hc : c ≠ '\n' := fun h => hnl (h ▸ List.mem_cons_self c cs)
    have ih2 := ih (fun hm => hnl (List.mem_cons_of_mem c hm))
    simp only [List.cons_append]
    rw [splitLines, ih2]
    simp [hc]

theorem splitLines_intercalate (ls : List Str) (hne : ls ≠ [])
    (hnl : ∀ l ∈ ls, '\n' ∉ l) :
    splitLines (List.intercalate ['\n'] ls) = ls := by
  induction ls with
  | nil => exact absurd rfl hne
  | cons l t ih =>
    cases t with
    | nil =>
      rw [show List.intercalate ['\n'] [l] = l from by simp [List.intercalate]]
      exact splitLines_no_nl l (hnl l (List.mem_cons_self l []))
    | cons l2 t2 =>
      have hstep : List.intercalate ['\n'] (l :: l2 :: t2) =
          l ++ '\n' :: List.intercalate ['\n'] (l2 :: t2) := by
        simp [List.intercalate, List.intersperse]
      rw [hstep, splitLines_append_newline l (hnl l (List.mem_cons_self l _)) _]
      rw [ih (by simp) (fun x hx => hnl x (List.mem_cons_of_mem l hx))]

theorem parseStripped_text_subset (t : Str) : ∀ x ∈ (parseStripped t).text, x ∈ t := by
  intro x hx
  unfold parseStripped at hx
  split at hx
  · exact List.drop_subset 2 t hx
  · split at hx
    · exact List.drop_subset 3 t hx
    · split at hx
      · exact List.drop_subset 4 t hx
      · split at hx
        · exact List.drop_subset 2 t hx
        · split at hx
          · rename_i r hn
            obtain ⟨ds, c, -, -, -, hteq⟩ := numbered_structure t r hn
            rw [hteq]
            exact List.mem_append_right ds
              (List.mem_cons_of_mem '.' (List.mem_cons_of_mem c hx))
          · exact hx

theorem rstrip_subset (s : Str) : ∀ x ∈ rstrip s, x ∈ s := by
  intro x hx
  unfold rstrip at hx
  rw [List.mem_reverse] at hx
  have h2 := List.dropWhile_subset (p := isPySpace) hx
  exact List.mem_reverse.mp h2

theorem renderedLine_no_nl (b : Block) (htext : '\n' ∉ b.text) : '\n' ∉ renderedLine b := by
  intro hmem
  rcases List.mem_append.mp hmem with hm | hm
  · cases hb : b.btype <;> rw [hb] at hm <;> exact absurd hm (by decide)
  · exact htext hm

theorem blocksToMarkdown_eq (bs : List Block) :
    blocksToMarkdown bs = List.intercalate ['\n'] (bs.map renderedLine) := by
  unfold blocksToMarkdown renderRawBlocks
  congr 1
  induction bs with
  | nil => rfl
  | cons b t ih =>
    simp only [List.map_cons, List.filterMap_cons, renderRawBlock_blockToRaw b, ih]
    simp [renderedLine, List.append_nil]

theorem filterMap_reparse_id (bs : List Block)
    (h : ∀ x ∈ bs, parseLine (renderedLine x) = some x) :
    bs.filterMap (fun x => parseLine (renderedLine x)) = bs := by
  induction bs with
  | nil => rfl
  | cons b t ih =>
    simp only [List.filterMap_cons, h b (List.mem_cons_self b t),
      ih (fun x hx => h x (List.mem_cons_of_mem b hx))]

/-- Claim C4: re-parsing the reader's rendering of the converter's own
output reproduces exactly the same block sequence — the same types and the
same text payloads — and every numbered item is rendered with the literal
1-dot marker, so the original ordinal of a numbered source line is not
preserved by rendering. -/
theorem C4_roundtrip_stability (markdown : Str) :
    markdown_to_notion_blocks (blocksToMarkdown (markdown_to_notion_blocks markdown)) =
      markdown_to_notion_blocks markdown ∧
    (∀ txt : Str, renderRawBlock (blockToRaw ⟨BlockType.numbered, txt⟩) =
      some ('1' :: '.' :: ' ' :: txt)) := by
  constructor
  · have hmem : ∀ x ∈ markdown_to_notion_blocks markdown,
        parseLine (renderedLine x) = some x ∧ '\n' ∉ renderedLine x := by
      intro x hx
      unfold markdown_to_notion_blocks at hx
      obtain ⟨line, hline, hpl⟩ := List.mem_filterMap.mp hx
      have hnl_line := splitLines_no_newline markdown line hline
      refine ⟨parseLine_roundtrip line x hpl, ?_⟩
      apply renderedLine_no_nl
      intro hmm
      obtain ⟨hb, -⟩ := parseLine_some_struct line x hpl
      rw [hb] at hmm
      exact hnl_line (rstrip_subset line '\n' (parseStripped_text_subset (rstrip line) '\n' hmm))
    rcases hb : markdown_to_notion_blocks markdown with _ | ⟨b, bs⟩
    · rfl
    · have hnlf : ∀ l ∈ (b :: bs).map renderedLine, '\n' ∉ l := by
        intro l hl
        obtain ⟨x, hx, rfl⟩ := List.mem_map.mp hl
        exact (hmem x (by rw [hb]; exact hx)).2
      rw [blocksToMarkdown_eq]
      unfold markdown_to_notion_blocks
      rw [splitLines_intercalate ((b :: bs).map renderedLine) (by simp) hnlf]
      rw [List.filterMap_map]
      exact filterMap_reparse_id (b :: bs) (fun x hx => (hmem x (by rw [hb]; exact hx)).1)
  · intro txt
    rw [renderRawBlock_blockToRaw ⟨BlockType.numbered, txt⟩]
    simp [lineMarker]

